import Mathlib

/-!
Verification of the semgrep autofix patch engine (`semgrep/autofix.py`) and the
baseline snapshot manager (`semgrep/git.py`) against their natural-language
specification.  The Python code is shallowly embedded: Python strings are lists
of characters, the filesystem is an association list from paths to text
contents, subprocess calls and the caller-supplied scan body are parameters of
the embedding, and Python exceptions are explicit error values.
-/

namespace Semgrep

/-- Python strings are modelled as lists of characters. -/
abbrev Str := List Char

/-- A `pathlib.Path` value.  It wraps the path text; keeping it as a distinct
type from `Str` mirrors the fact that Python `pathlib.Path` objects and `str`
objects are different objects that never compare equal under `==`. -/
structure PPath where
  s : Str
deriving DecidableEq, Repr

/-- A Python value that is either a `str` or a `pathlib.Path`; used to model
heterogeneous sets such as the operands of the set intersection in
`_abort_on_conflicting_untracked_paths`. -/
inductive PyObj
  | pstr (s : Str)
  | ppath (p : PPath)
deriving DecidableEq, Repr

/-- Python `==` on the modelled values: a `str` never equals a `Path`
(`PurePath.__eq__` returns `NotImplemented` for a `str` operand, so `==`
falls back to `False`). -/
def pyEq : PyObj → PyObj → Bool
  | .pstr a, .pstr b => a = b
  | .ppath a, .ppath b => a = b
  | _, _ => false

/-- Normalise one bound of a Python slice `l[a:b]` to an absolute index:
negative bounds count from the end and everything is clamped to `[0, len]`. -/
def pySliceIdx (len : Nat) (i : Int) : Nat :=
  if i < 0 then len - min len (-i).toNat else min i.toNat len

/-- Python slice `l[a:]`. -/
def pySliceFrom (l : List α) (a : Int) : List α :=
  l.drop (pySliceIdx l.length a)

/-- Python slice `l[:b]`. -/
def pySliceTo (l : List α) (b : Int) : List α :=
  l.take (pySliceIdx l.length b)

/-- Python slice `l[a:b]`. -/
def pySlice (l : List α) (a b : Int) : List α :=
  (l.take (pySliceIdx l.length b)).drop (pySliceIdx l.length a)

/-- Python indexing `l[i]` with negative-index wrap-around; `none` models an
`IndexError`. -/
def pyIndex (l : List α) (i : Int) : Option α :=
  if i < 0 then
    if (-i).toNat ≤ l.length then l.get? (l.length - (-i).toNat) else none
  else l.get? i.toNat

/-- Python `str.splitlines()` restricted to `'\n'` line boundaries (the only
line terminator occurring in the modelled texts): like `split('\n')` but with
no trailing empty chunk and `[]` on the empty string. -/
def pySplitlines (s : Str) : List Str :=
  if s = [] then []
  else if s.getLast? = some '\n' then (s.splitOn '\n').dropLast
  else s.splitOn '\n'

/-- Python `str.strip()` (whitespace strip at both ends). -/
def pyStrip (s : Str) : Str :=
  ((s.dropWhile Char.isWhitespace).reverse.dropWhile Char.isWhitespace).reverse

/-- The filesystem seen by the patch engine: an association list from paths to
text contents (first binding wins). -/
abbrev FS := List (PPath × Str)

/-- `path.read_text()`: `none` models the I/O error raised when the file does
not exist. -/
def fsRead : FS → PPath → Option Str
  | [], _ => none
  | (q, c) :: rest, p => if q = p then some c else fsRead rest p

/-- `path.write_text(contents)`: replaces the first binding of the path, or
creates the file. -/
def fsWrite : FS → PPath → Str → FS
  | [], p, c => [(p, c)]
  | (q, d) :: rest, p, c => if q = p then (p, c) :: rest else (q, d) :: fsWrite rest p c

/-! ## Embedding of `semgrep/autofix.py` -/

/-- `SPLIT_CHAR = "\n"` from `autofix.py`. -/
def SPLIT_CHAR : Char := '\n'

/-- A 1-indexed source position as carried by a rule match (`start`/`end`
objects with `line` and `col` fields). -/
structure Position where
  line : Int
  col : Int
deriving DecidableEq, Repr

/-- A `fix-regex` directive: the `regex`, `replacement` and `count` entries of
the dictionary (each possibly missing). -/
structure FixRegex where
  regex : Option Str
  replacement : Option Str
  count : Option Int
deriving DecidableEq, Repr

/-- A rule match record as consumed by `apply_fixes`: target path, start/end
positions, optional literal fix, optional regex fix, and the mutable `extra`
dictionary (modelled as an association list with `List Str` values, which is
the only value shape written by this code: `fixed_lines`). -/
structure RuleMatch where
  path : PPath
  start : Position
  stop : Position
  fix : Option Str
  fix_regex : Option FixRegex
  extra : List (Str × List Str)
deriving DecidableEq, Repr

/-- The per-file offset state from `autofix.py` (`FileOffsets`). -/
structure FileOffsets where
  line_offset : Int
  col_offset : Int
  active_line : Int
deriving DecidableEq, Repr

/-- The result object `Fix(fixed_contents, fixed_lines)` from `autofix.py`. -/
structure FixResult where
  fixed_contents : Str
  fixed_lines : List Str
deriving DecidableEq, Repr

/-- The Python exceptions surfacing from `apply_fixes` and its helpers. -/
inductive PyErr
  | fileNotFound
  | indexError
  | unableToModify (p : PPath)
  | regexReplacementRequired
  | unableToRegexModify (p : PPath)
deriving DecidableEq, Repr

/-- `_get_lines`: read the file and split its contents on `SPLIT_CHAR`. -/
def get_lines (fs : FS) (path : PPath) : Except PyErr (List Str) :=
  match fsRead fs path with
  | none => .error .fileNotFound
  | some contents => .ok (contents.splitOn SPLIT_CHAR)

/-- `_get_match_context`: convert the 1-indexed match span to 0-indexed
positions and shift them by the file's current offsets. -/
def get_match_context (rule_match : RuleMatch) (offsets : FileOffsets) :
    Int × Int × Int × Int :=
  let start_line := rule_match.start.line - 1 + offsets.line_offset
  let start_col := rule_match.start.col - 1 + offsets.col_offset
  let end_line := rule_match.stop.line - 1 + offsets.line_offset
  let end_col := rule_match.stop.col - 1 + offsets.col_offset
  (start_line, start_col, end_line, end_col)

/-- `_basic_fix`: splice a literal replacement into the file's lines at the
offset-corrected span, and update the offsets.  `line_offset` is *assigned*
(not accumulated), exactly as in the source. -/
def basic_fix (fs : FS) (rule_match : RuleMatch) (file_offsets : FileOffsets)
    (fix : Str) : Except PyErr (FixResult × FileOffsets) :=
  match get_lines fs rule_match.path with
  | .error e => .error e
  | .ok lines =>
    let q := get_match_context rule_match file_offsets
    let start_line := q.1
    let start_col := q.2.1
    let end_line := q.2.2.1
    let end_col := q.2.2.2
    match pyIndex lines start_line, pyIndex lines end_line with
    | some startLineText, some endLineText =>
      let before_lines := pySliceTo lines start_line
      let before_on_start_line := pySliceTo startLineText start_col
      let after_on_end_line := pySliceFrom endLineText end_col
      let modified_lines := pySplitlines (before_on_start_line ++ fix ++ after_on_end_line)
      let after_lines := pySliceFrom lines (end_line + 1)
      let contents_after_fix := before_lines ++ modified_lines ++ after_lines
      let off1 := { file_offsets with
        line_offset := (contents_after_fix.length : Int) - (lines.length : Int) }
      let off2 := if start_line = end_line
        then { off1 with col_offset := (fix.length : Int) - (end_col - start_col) }
        else off1
      .ok (⟨List.intercalate [SPLIT_CHAR] contents_after_fix, modified_lines⟩, off2)
    | _, _ => .error .indexError

/-- Convert the `count` argument of `re.sub` to a replacement budget:
`0` means unlimited, a positive count bounds the number of replacements, and a
negative count allows none (CPython's `subn` loop runs while `not count or
n < count`). -/
def subBudget (count : Int) : Option Nat :=
  if count = 0 then none else some count.toNat

/-- Python `re.sub(pattern, repl, s, count)` embedded for nonempty *literal*
patterns: scan left to right, replace each non-overlapping occurrence while
the budget lasts (`none` = unlimited).  An empty pattern is treated as
matching nowhere; the theorems about this function always hypothesise a
nonempty pattern. -/
def reSub (p r : Str) (budget : Option Nat) (s : Str) : Str :=
  match s with
  | [] => []
  | ch :: cs =>
    if budget = some 0 then ch :: cs
    else if h : p ≠ [] ∧ p.isPrefixOf (ch :: cs) then
      r ++ reSub p r (budget.map (· - 1)) ((ch :: cs).drop p.length)
    else
      ch :: reSub p r budget cs
termination_by s.length
decreasing_by
  · simp only [List.length_drop, List.length_cons]
    have : 0 < p.length := List.length_pos.mpr h.1
    omega
  · simp

/-- The index of the leftmost occurrence of `p` in `s` (`none` if there is no
occurrence).  This is the specification-side notion of "first occurrence". -/
def firstOccIdx (p : Str) : Str → Option Nat
  | [] => none
  | ch :: cs =>
    if p.isPrefixOf (ch :: cs) then some 0 else (firstOccIdx p cs).map (· + 1)

/-- Replace exactly the leftmost occurrence of `p` in `s` by `r` (identity when
there is no occurrence). -/
def replaceFirst (p r s : Str) : Str :=
  match firstOccIdx p s with
  | none => s
  | some i => s.take i ++ r ++ s.drop (i + p.length)

/-- Fuel-driven worker for `replaceAll`: repeatedly replace the leftmost
occurrence in the yet-unprocessed suffix. -/
def replaceAllAux (c : Char) (ps r : Str) : Nat → Str → Str
  | 0, s => s
  | fuel + 1, s =>
    match firstOccIdx (c :: ps) s with
    | none => s
    | some i =>
      s.take i ++ r ++ replaceAllAux c ps r fuel (s.drop (i + (c :: ps).length))

/-- Replace every (left-to-right, non-overlapping) occurrence of `p` in `s` by
`r`; defined by iterating leftmost-occurrence replacement, independently of
`reSub`'s recursion structure. -/
def replaceAll (p r s : Str) : Str :=
  match p with
  | [] => s
  | c :: ps => replaceAllAux c ps r s.length s

/-- `fix_regex.get("count", 0)` from `apply_fixes`. -/
def fixRegexCount (fr : FixRegex) : Int :=
  fr.count.getD 0

/-- The lines strictly before the match span (`lines[:start_line]`), as left
untouched by `_regex_replace`. -/
def regexBeforeLines (contents : Str) (rule_match : RuleMatch)
    (offsets : FileOffsets) : List Str :=
  pySliceTo (contents.splitOn SPLIT_CHAR) (get_match_context rule_match offsets).1

/-- The lines strictly after the match span (`lines[end_line + 1:]`), as left
untouched by `_regex_replace`. -/
def regexAfterLines (contents : Str) (rule_match : RuleMatch)
    (offsets : FileOffsets) : List Str :=
  pySliceFrom (contents.splitOn SPLIT_CHAR)
    ((get_match_context rule_match offsets).2.2.1 + 1)

/-- The joined text of the match's line span
(`"\n".join(lines[start_line : end_line + 1])`), the block the regex
substitution operates on. -/
def regexSpanText (contents : Str) (rule_match : RuleMatch)
    (offsets : FileOffsets) : Str :=
  List.intercalate [SPLIT_CHAR]
    (pySlice (contents.splitOn SPLIT_CHAR) (get_match_context rule_match offsets).1
      ((get_match_context rule_match offsets).2.2.1 + 1))

/-- `_regex_replace`: substitute inside the joined text of the match's line
span only, and splice the transformed block between the untouched surrounding
lines. -/
def regex_replace (fs : FS) (rule_match : RuleMatch) (file_offsets : FileOffsets)
    (from_str to_str : Str) (count : Int) : Except PyErr (FixResult × FileOffsets) :=
  match get_lines fs rule_match.path with
  | .error e => .error e
  | .ok lines =>
    let q := get_match_context rule_match file_offsets
    let start_line := q.1
    let end_line := q.2.2.1
    let before_lines := pySliceTo lines start_line
    let after_lines := pySliceFrom lines (end_line + 1)
    let match_context := pySlice lines start_line (end_line + 1)
    let fix := reSub from_str to_str (subBudget count)
      (List.intercalate [SPLIT_CHAR] match_context)
    let modified_context := pySplitlines fix
    let modified_contents := before_lines ++ modified_context ++ after_lines
    let off := { file_offsets with
      line_offset := (modified_context.length : Int) - (match_context.length : Int) }
    .ok (⟨List.intercalate [SPLIT_CHAR] modified_contents, modified_context⟩, off)

/-- Python truthiness of an optional string: `None` and `""` are falsy
(`if fix:` / `if not regex or not replacement:`). -/
def truthyStr : Option Str → Option Str
  | none => none
  | some s => if s = [] then none else some s

/-- Association-list read of the per-file offsets dictionary
(`modified_files_offsets.get(filepath, default)` without the default). -/
def lookupOff : List (PPath × FileOffsets) → PPath → Option FileOffsets
  | [], _ => none
  | (q, off) :: rest, p => if q = p then some off else lookupOff rest p

/-- Association-list write of the per-file offsets dictionary. -/
def storeOff : List (PPath × FileOffsets) → PPath → FileOffsets → List (PPath × FileOffsets)
  | [], p, off => [(p, off)]
  | (q, o) :: rest, p, off =>
    if q = p then (p, off) :: rest else (q, o) :: storeOff rest p off

/-- Python `set.add` on a set modelled as a duplicate-free list. -/
def setAdd (l : List PPath) (p : PPath) : List PPath :=
  if p ∈ l then l else l ++ [p]

/-- Write a key of the `extra` dictionary of a match
(`rule_match.extra["fixed_lines"] = ...`). -/
def extraSet (extra : List (Str × List Str)) (k : Str) (v : List Str) :
    List (Str × List Str) :=
  match extra with
  | [] => [(k, v)]
  | (k', v') :: rest => if k' = k then (k, v) :: rest else (k', v') :: extraSet rest k v

/-- Read a key of the `extra` dictionary of a match. -/
def extraGet : List (Str × List Str) → Str → Option (List Str)
  | [], _ => none
  | (k', v') :: rest, k => if k' = k then some v' else extraGet rest k

/-- The mutable state threaded through the `apply_fixes` loops. -/
structure LoopSt where
  fs : FS
  modified_files : List PPath
  offsetsMap : List (PPath × FileOffsets)
  writeEvents : List PPath
deriving DecidableEq, Repr

/-- The offset fetch-and-update prologue of one `apply_fixes` iteration:
`modified_files_offsets.get(filepath, FileOffsets(0, 0, line))` followed by
the `active_line`/`col_offset` reset.  The Python code mutates the fetched
`FileOffsets` object in place, so when the path was already present in the
dictionary the update is visible there too; functionally, the updated offsets
are stored back exactly in that case. -/
def applyFixesAlias (st : LoopSt) (rule_match : RuleMatch) : LoopSt × FileOffsets :=
  let filepath := rule_match.path
  let fetched := lookupOff st.offsetsMap filepath
  let file_offsets₀ := fetched.getD ⟨0, 0, rule_match.start.line⟩
  let file_offsets :=
    if file_offsets₀.active_line ≠ rule_match.start.line then
      { file_offsets₀ with active_line := rule_match.start.line, col_offset := 0 }
    else file_offsets₀
  if fetched.isSome then
    ({ st with offsetsMap := storeOff st.offsetsMap filepath file_offsets }, file_offsets)
  else (st, file_offsets)

/-- The fix computation of one `apply_fixes` iteration: the
`if fix: ... elif fix_regex: ... else: continue` dispatch.  `.inr ()` models
the `continue` for a match with no fix; `.inl` carries the computed fix or
the raised exception. -/
def applyFixesCompute (fs : FS) (rule_match : RuleMatch) (file_offsets : FileOffsets) :
    Except PyErr (FixResult × FileOffsets) ⊕ Unit :=
  match truthyStr rule_match.fix with
  | some fixText =>
    .inl (match basic_fix fs rule_match file_offsets fixText with
      | .error _ => .error (.unableToModify rule_match.path)
      | .ok res => .ok res)
  | none =>
    match rule_match.fix_regex with
    | some fr =>
      .inl (match truthyStr fr.regex, truthyStr fr.replacement with
        | some regexText, some replacementText =>
          (match regex_replace fs rule_match file_offsets regexText
              replacementText (fixRegexCount fr) with
            | .error _ => .error (.unableToRegexModify rule_match.path)
            | .ok res => .ok res)
        | _, _ => .error .regexReplacementRequired)
    | none => .inr ()

/-- One iteration of the inner `for rule_match in rule_matches` loop of
`apply_fixes`.  Returns the updated state, the (possibly `extra`-updated)
match, and the raised exception if any. -/
def applyFixesStep (dryrun : Bool) (st : LoopSt) (rule_match : RuleMatch) :
    LoopSt × RuleMatch × Option PyErr :=
  let a := applyFixesAlias st rule_match
  match applyFixesCompute a.1.fs rule_match a.2 with
  | .inr _ => (a.1, rule_match, none)
  | .inl (.error e) => (a.1, rule_match, some e)
  | .inl (.ok (fixobj, new_file_offset)) =>
    if dryrun then
      (a.1,
        { rule_match with
          extra := extraSet rule_match.extra ("fixed_lines".toList) fixobj.fixed_lines },
        none)
    else
      ({ a.1 with
          fs := fsWrite a.1.fs rule_match.path fixobj.fixed_contents,
          modified_files := setAdd a.1.modified_files rule_match.path,
          offsetsMap := storeOff a.1.offsetsMap rule_match.path new_file_offset,
          writeEvents := a.1.writeEvents ++ [rule_match.path] },
        rule_match, none)

/-- The inner loop of `apply_fixes` over one rule's matches; stops at the first
raised exception, leaving the remaining matches unprocessed. -/
def applyFixesMatches (dryrun : Bool) :
    LoopSt → List RuleMatch → LoopSt × List RuleMatch × Option PyErr
  | st, [] => (st, [], none)
  | st, m :: ms =>
    match applyFixesStep dryrun st m with
    | (st', m', some e) => (st', m' :: ms, some e)
    | (st', m', none) =>
      let rec_ := applyFixesMatches dryrun st' ms
      (rec_.1, m' :: rec_.2.1, rec_.2.2)

/-- The outer loop of `apply_fixes` over the rules. -/
def applyFixesRules (dryrun : Bool) :
    LoopSt → List (Str × List RuleMatch) →
      LoopSt × List (Str × List RuleMatch) × Option PyErr
  | st, [] => (st, [], none)
  | st, (rid, ms) :: rest =>
    match applyFixesMatches dryrun st ms with
    | (st', ms', some e) => (st', (rid, ms') :: rest, some e)
    | (st', ms', none) =>
      let rec_ := applyFixesRules dryrun st' rest
      (rec_.1, (rid, ms') :: rec_.2.1, rec_.2.2)

/-- The observable outcome of one `apply_fixes` invocation. -/
structure ApplyOut where
  /-- The filesystem after the call. -/
  fs : FS
  /-- The local `modified_files` set (insertion-ordered, duplicate-free). -/
  modified_files : List PPath
  /-- The local `modified_files_offsets` dictionary. -/
  modified_files_offsets : List (PPath × FileOffsets)
  /-- Every path passed to `_write_contents`, in order. -/
  writeEvents : List PPath
  /-- The input mapping with the per-match `extra` mutations applied. -/
  matchesOut : List (Str × List RuleMatch)
  /-- The exception that aborted the call, if any. -/
  err : Option PyErr
  /-- `num_modified` as computed for the summary log line; `none` when an
  exception aborted the call before the summary. -/
  num_modified : Option Nat
  /-- The Python return value.  The source is annotated `-> None` and has no
  `return` statement, so a completed call returns `None`, never a set. -/
  ret : Option (List PPath)
deriving DecidableEq, Repr

/-- `apply_fixes(rule_matches_by_rule, dryrun)`. -/
def apply_fixes (rule_matches_by_rule : List (Str × List RuleMatch)) (fs : FS)
    (dryrun : Bool) : ApplyOut :=
  let st0 : LoopSt := ⟨fs, [], [], []⟩
  let out := applyFixesRules dryrun st0 rule_matches_by_rule
  { fs := out.1.fs
    modified_files := out.1.modified_files
    modified_files_offsets := out.1.offsetsMap
    writeEvents := out.1.writeEvents
    matchesOut := out.2.1
    err := out.2.2
    num_modified := if out.2.2 = none then some out.1.modified_files.length else none
    ret := none }

/-! ## Embedding of `semgrep/git.py` -/

/-- `zsplit`: strip null characters at both ends, then split the rest on null
characters (empty result for the all-null or empty string). -/
def zsplit (s : Str) : List Str :=
  let t := ((s.dropWhile (· = '\x00')).reverse.dropWhile (· = '\x00')).reverse
  if t = [] then [] else t.splitOn '\x00'

/-- `StatusCode.Added` from `git.py`. -/
def StatusCode.Added : Str := "A".toList

/-- `StatusCode.Deleted` from `git.py`. -/
def StatusCode.Deleted : Str := "D".toList

/-- `StatusCode.Renamed` from `git.py`. -/
def StatusCode.Renamed : Str := "R".toList

/-- `StatusCode.Modified` from `git.py`. -/
def StatusCode.Modified : Str := "M".toList

/-- `StatusCode.Unmerged` from `git.py`. -/
def StatusCode.Unmerged : Str := "U".toList

/-- `StatusCode.Ignored` from `git.py`. -/
def StatusCode.Ignored : Str := "!".toList

/-- `StatusCode.Untracked` from `git.py`. -/
def StatusCode.Untracked : Str := "?".toList

/-- `StatusCode.Unstaged` from `git.py` (a space, "but changed"). -/
def StatusCode.Unstaged : Str := " ".toList

/-- The `GitStatus` named tuple. -/
structure GitStatus where
  added : List PPath
  modified : List PPath
  removed : List PPath
  unmerged : List PPath
deriving DecidableEq, Repr

/-- The state of the `while status_output:` parsing loop of
`_get_git_status`: the remaining entry list and the four accumulators. -/
structure ParseSt where
  status_output : List Str
  added : List PPath
  modified : List PPath
  removed : List PPath
  unmerged : List PPath
deriving DecidableEq, Repr

/-- The result of one iteration of the parsing loop: loop exit, an
`IndexError` from reading past the end of the entry list, or the next state. -/
inductive StepRes
  | done (st : ParseSt)
  | err
  | next (st : ParseSt)
deriving DecidableEq, Repr

/-- One iteration of the `while status_output:` loop of `_get_git_status`.
`symdir path` models `Path(path).is_symlink() and Path(path).is_dir()`.  The
`continue` statements of the source skip the final
`status_output = status_output[trim_size:]`, so the three skip branches leave
the state unchanged, exactly as in the source. -/
def parseStep (symdir : Str → Bool) (st : ParseSt) : StepRes :=
  match st.status_output with
  | [] => .done st
  | code :: rest =>
    match rest with
    | [] => .err
    | fname :: rest2 =>
      if pyStrip code = [] then .next st
      else if code = StatusCode.Untracked ∨ code = StatusCode.Ignored then .next st
      else
        let path := PPath.mk fname
        if symdir fname then .next st
        else
          let unmerged1 :=
            if code = StatusCode.Unmerged then st.unmerged ++ [path] else st.unmerged
          if code.head? = some 'R' then
            match rest2 with
            | [] => .err
            | new_fname :: rest3 =>
              let removed1 := st.removed ++ [path]
              let added1 := st.added ++ [PPath.mk new_fname]
              let added2 :=
                if code = StatusCode.Added then added1 ++ [path] else added1
              let modified1 :=
                if code = StatusCode.Modified then st.modified ++ [path] else st.modified
              let removed2 :=
                if code = StatusCode.Deleted then removed1 ++ [path] else removed1
              .next ⟨rest3, added2, modified1, removed2, unmerged1⟩
          else
            let added1 :=
              if code = StatusCode.Added then st.added ++ [path] else st.added
            let modified1 :=
              if code = StatusCode.Modified then st.modified ++ [path] else st.modified
            let removed1 :=
              if code = StatusCode.Deleted then st.removed ++ [path] else st.removed
            .next ⟨rest2, added1, modified1, removed1, unmerged1⟩

/-- Run the parsing loop for at most `fuel` iterations; `none` means the loop
was still running when the fuel ran out (for the inputs of interest this holds
for every fuel, i.e. the loop never terminates). -/
def runParse (symdir : Str → Bool) : Nat → ParseSt → Option (Except Unit GitStatus)
  | 0, _ => none
  | fuel + 1, st =>
    match parseStep symdir st with
    | .done st' => some (.ok ⟨st'.added, st'.modified, st'.removed, st'.unmerged⟩)
    | .err => some (.error ())
    | .next st' => runParse symdir fuel st'

/-- `_get_git_status`: split the raw `git diff` output on nulls and run the
parsing loop on it. -/
def get_git_status (symdir : Str → Bool) (stdout : Str) (fuel : Nat) :
    Option (Except Unit GitStatus) :=
  runParse symdir fuel ⟨zsplit stdout, [], [], [], []⟩

/-- `self._get_dirty_paths_by_status().get(code, [])`. -/
def dirtyGet (dirty : List (Str × List PPath)) (code : Str) : List PPath :=
  match dirty with
  | [] => []
  | (c, ps) :: rest => if c = code then ps else dirtyGet rest code

/-- `_abort_on_pending_changes`: raise when any dirty-path status code other
than untracked is present (`set(self._get_dirty_paths_by_status()) - {"?"}`
nonempty). -/
def abort_on_pending_changes (dirty : List (Str × List PPath)) : Except Unit Unit :=
  if (dirty.map Prod.fst).filter (fun c => decide (c ≠ StatusCode.Untracked)) ≠ []
  then .error () else .ok ()

/-- `_abort_on_conflicting_untracked_paths`: intersect the set of changed
paths (`Path` objects from the status set) with the set of untracked paths
(`str` objects, built by `str(path)`) under Python `==`, and raise when the
intersection is nonempty.  The operands are `PyObj` lists because the source
intersects a set of `str` with a set of `Path`. -/
def abort_on_conflicting_untracked_paths (status : GitStatus)
    (untracked : List PPath) : Except (List PyObj) Unit :=
  let changed_paths : List PyObj :=
    (status.added ++ status.modified ++ status.removed ++ status.unmerged).map PyObj.ppath
  let untracked_paths : List PyObj := untracked.map (fun p => PyObj.pstr p.s)
  let overlapping_paths :=
    untracked_paths.filter (fun u => changed_paths.any (fun c => pyEq u c))
  if overlapping_paths ≠ [] then .error overlapping_paths else .ok ()

/-- The environment a `BaselineHandler` construction runs in: the outcomes of
its git subprocess calls and filesystem queries. -/
structure BaselineEnv where
  /-- Whether `git cat-file -e base_commit` succeeds. -/
  catFileOk : Bool
  /-- The raw stdout of the `git diff` status query. -/
  statusOutput : Str
  /-- The porcelain dirty-path index: status code ↦ paths. -/
  dirty : List (Str × List PPath)
  /-- Which path texts name symlinks to directories. -/
  symdir : Str → Bool

/-- The exceptions `BaselineHandler.__init__` can raise. -/
inductive InitErr
  | commitNotFound
  | indexErr
  | pendingChanges
  | conflictingUntracked
deriving DecidableEq, Repr

/-- `BaselineHandler.__init__`, with `fuel` bounding the status-parse loop;
the outer `none` models the constructor never returning because that loop
spins. -/
def BaselineHandler.init (env : BaselineEnv) (fuel : Nat) :
    Option (Except InitErr GitStatus) :=
  if ¬ env.catFileOk then some (.error .commitNotFound)
  else
    match get_git_status env.symdir env.statusOutput fuel with
    | none => none
    | some (.error _) => some (.error .indexErr)
    | some (.ok status) =>
      match abort_on_pending_changes env.dirty with
      | .error _ => some (.error .pendingChanges)
      | .ok _ =>
        match abort_on_conflicting_untracked_paths status
            (dirtyGet env.dirty StatusCode.Untracked) with
        | .error _ => some (.error .conflictingUntracked)
        | .ok _ => some (.ok status)

/-- The observable git-facing events of one `baseline_context` run, in order. -/
inductive GEvent
  | unlinkAdded (p : PPath)
  | checkoutBaseline
  | restoreCheckout
  | gitRm (ps : List PPath)
deriving DecidableEq, Repr

/-- The exceptions that can escape `baseline_context`. -/
inductive CtxErr
  | pendingChanges
  | conflictingUntracked
  | calledProcessError
  | attributeError
  | fatalRestore (output : Str)
  | callerRaised
deriving DecidableEq, Repr

/-- The environment a `baseline_context` run sees: the dirty-path index, the
outcomes of its git subprocess calls, whether the caller's body raises, and
which files exist at restore time. -/
structure CtxEnv where
  /-- The porcelain dirty-path index at entry. -/
  dirty : List (Str × List PPath)
  /-- Whether `git write-tree` succeeds (it runs with `check=True`). -/
  writeTreeOk : Bool
  /-- Whether the baseline `git checkout` succeeds (`check=True`). -/
  checkoutBaselineOk : Bool
  /-- Whether the caller's body under `yield` completes without raising. -/
  callerOk : Bool
  /-- The exit code of the restoration `git checkout`. -/
  restoreReturncode : Int
  /-- What that checkout prints on its stderr.  The call does not redirect
  stderr, so this text goes to the terminal and is never captured. -/
  restoreStderrText : Str
  /-- Which paths exist at restore time (`r.exists()`). -/
  fileExists : PPath → Bool

/-- A `subprocess.CompletedProcess`: exit code and the *captured* stderr,
which is `None` unless the call passed `stderr=subprocess.PIPE`. -/
structure CompletedProcess where
  returncode : Int
  stderr : Option Str
deriving Repr

/-- `subprocess.run` without `stderr=subprocess.PIPE`: whatever the child
printed goes to the terminal, and `CompletedProcess.stderr` is `None`. -/
def runWithoutCapture (rc : Int) (_printed : Str) : CompletedProcess :=
  ⟨rc, none⟩

/-- Python `bytes.decode()` on an optional value: calling `.decode()` on
`None` raises `AttributeError`. -/
def pyDecode : Option Str → Except Unit Str
  | none => .error ()
  | some s => .ok s

/-- The known-benign diagnostic text the source looks for in the restoration
checkout's output. -/
def emptyRepoPattern : Str :=
  "pathspec '.' did not match any file(s) known to git".toList

/-- The source's test for the tolerated empty-repository restoration failure:
`output and len(output) >= 2 and pattern in output.strip()`. -/
def benignEmptyRepo (output : Str) : Bool :=
  !output.isEmpty && decide (output.length ≥ 2)
    && decide (emptyRepoPattern <:+: pyStrip output)

/-- The outcome of the restoration checkout inside the `finally:` block of
`baseline_context`: run `git checkout <tree> -- .` without capturing stderr,
and on a non-zero exit code decode and inspect `x.stderr` exactly as the
source does. -/
def restoreCheckoutErr (env : CtxEnv) : Option CtxErr :=
  let x := runWithoutCapture env.restoreReturncode env.restoreStderrText
  if x.returncode ≠ 0 then
    match pyDecode x.stderr with
    | .error _ => some .attributeError
    | .ok output =>
      if benignEmptyRepo output then none else some (.fatalRestore output)
  else none

/-- The `finally:` block of `baseline_context`: run the restoration checkout,
inspect its outcome, and afterwards `git rm` the still-existing removed
paths.  Returns the events and the exception raised by the block, if any. -/
def restoreStep (env : CtxEnv) (removed : List PPath) : List GEvent × Option CtxErr :=
  match restoreCheckoutErr env with
  | some e => ([.restoreCheckout], some e)
  | none =>
    if removed ≠ [] then
      let to_remove := removed.filter (fun r => env.fileExists r)
      if to_remove ≠ [] then ([.restoreCheckout, .gitRm to_remove], none)
      else ([.restoreCheckout], none)
    else ([.restoreCheckout], none)

/-- `baseline_context`: re-run the two abort checks, record the current tree
with `git write-tree`, delete the added paths, check out the baseline, run the
caller's body, and restore via the `finally:` block on every exit path.  An
exception raised by the `finally:` block replaces the in-flight exception,
per Python semantics. -/
def baseline_context (status : GitStatus) (env : CtxEnv) :
    List GEvent × Except CtxErr Unit :=
  match abort_on_pending_changes env.dirty with
  | .error _ => ([], .error .pendingChanges)
  | .ok _ =>
    match abort_on_conflicting_untracked_paths status
        (dirtyGet env.dirty StatusCode.Untracked) with
    | .error _ => ([], .error .conflictingUntracked)
    | .ok _ =>
      if ¬ env.writeTreeOk then ([], .error .calledProcessError)
      else
        let delEvents := status.added.map GEvent.unlinkAdded
        let bodyEvents := delEvents ++ [GEvent.checkoutBaseline]
        let bodyRes : Except CtxErr Unit :=
          if ¬ env.checkoutBaselineOk then .error .calledProcessError
          else if ¬ env.callerOk then .error .callerRaised
          else .ok ()
        let fin := restoreStep env status.removed
        (bodyEvents ++ fin.1,
          match fin.2 with
          | some e => .error e
          | none => bodyRes)

/-! ## Concrete inputs used to settle the individual claims -/

/-- A filesystem-query stub: no path is a symlink to a directory. -/
def noSymdir : Str → Bool := fun _ => false

/-- The file of the C5 scenario. -/
def c5File : PPath := ⟨ "a.txt".toList ⟩

/-- The C5 scenario's filesystem: `a.txt` contains `"foo bar\nbaz foo\n"`. -/
def c5FS : FS := [(c5File, "foo bar\nbaz foo\n".toList)]

/-- C5 match 1: `foo` on line 1, columns 1–3 (1-indexed inclusive span, so the
exclusive end column of the match record is 4), literal fix `"qux"`. -/
def c5M1 : RuleMatch := ⟨c5File, ⟨1, 1⟩, ⟨1, 4⟩, some ("qux".toList), none, []⟩

/-- C5 match 2 as the claim states it: line 2, columns 6–8 (exclusive end
column 9), literal fix `"qux"`. -/
def c5M2 : RuleMatch := ⟨c5File, ⟨2, 6⟩, ⟨2, 9⟩, some ("qux".toList), none, []⟩

/-- C5 match 2 as amended: line 2, columns 5–7 (exclusive end column 8), the
actual inclusive span of `foo` in `"baz foo"`. -/
def c5M2amended : RuleMatch := ⟨c5File, ⟨2, 5⟩, ⟨2, 8⟩, some ("qux".toList), none, []⟩

/-- The C5 input mapping as the claim states it. -/
def c5Rules : List (Str × List RuleMatch) := [("r".toList, [c5M1, c5M2])]

/-- The C5 input mapping with the amended second match. -/
def c5RulesAmended : List (Str × List RuleMatch) := [("r".toList, [c5M1, c5M2amended])]

/-- The file of the C4 scenario. -/
def c4File : PPath := ⟨ "f.txt".toList ⟩

/-- The C4 scenario's filesystem: `f.txt` contains `"a\nb\nc\n"`. -/
def c4FS : FS := [(c4File, "a\nb\nc\n".toList)]

/-- C4 fix 1: replace `a` (line 1) by the two-line text `"x\ny"`. -/
def c4M1 : RuleMatch := ⟨c4File, ⟨1, 1⟩, ⟨1, 2⟩, some ("x\ny".toList), none, []⟩

/-- C4 fix 2: replace `b` (line 2) by the two-line text `"p\nq"`. -/
def c4M2 : RuleMatch := ⟨c4File, ⟨2, 1⟩, ⟨2, 2⟩, some ("p\nq".toList), none, []⟩

/-- C4 fix 3: replace `c` (line 3) by `"z"`. -/
def c4M3 : RuleMatch := ⟨c4File, ⟨3, 1⟩, ⟨3, 2⟩, some ("z".toList), none, []⟩

/-- The first two C4 fixes. -/
def c4Rules2 : List (Str × List RuleMatch) := [("r".toList, [c4M1, c4M2])]

/-- All three C4 fixes. -/
def c4Rules3 : List (Str × List RuleMatch) := [("r".toList, [c4M1, c4M2, c4M3])]

/-- The file of the C7 and C8 witnesses. -/
def c7File : PPath := ⟨ "w.txt".toList ⟩

/-- The C7/C8 witness filesystem. -/
def c7FS : FS := [(c7File, "foo bar\n".toList)]

/-- A match with a literal fix, for the C7/C8 witnesses. -/
def c7M : RuleMatch := ⟨c7File, ⟨1, 1⟩, ⟨1, 4⟩, some ("qux".toList), none, []⟩

/-- The C7/C8 witness input mapping. -/
def c7Rules : List (Str × List RuleMatch) := [("r".toList, [c7M])]

/-- The untracked path of the C3 scenario. -/
def c3File : PPath := ⟨ "a.txt".toList ⟩

/-- The C3 construction environment: the commit resolves, the status diff
reports `a.txt` as added, and the porcelain status reports the same `a.txt`
as untracked — the collision the claim says must abort construction. -/
def c3Env : BaselineEnv :=
  ⟨true, "A\x00a.txt".toList, [("?".toList, [c3File])], noSymdir⟩

/-- The status set of the C2 scenario (an empty diff). -/
def c2Status : GitStatus := ⟨[], [], [], []⟩

/-- The C2 environment: everything succeeds until the restoration checkout,
which exits with code 1 and prints exactly the known-benign empty-repository
diagnostic on its (uncaptured) stderr. -/
def c2Env : CtxEnv := ⟨[], true, true, true, 1, emptyRepoPattern, fun _ => false⟩

/-- The status set of the C1 witness: one added and one removed path. -/
def c1wStatus : GitStatus := ⟨[⟨ "add.txt".toList ⟩], [], [⟨ "rm.txt".toList ⟩], []⟩

/-- The C1 witness environment: a clean tree, successful snapshot and baseline
checkout, a caller body that raises, and a successful restoration. -/
def c1wEnv : CtxEnv := ⟨[], true, true, false, 0, [], fun _ => true⟩

/-- The parse state of the C9 witness: a rename entry `R100 old.txt new.txt`
ahead of an empty remainder. -/
def c9wSt : ParseSt := ⟨["R100".toList, "old.txt".toList, "new.txt".toList], [], [], [], []⟩

/-- The file of the C6 witness. -/
def c6File : PPath := ⟨ "g.txt".toList ⟩

/-- The C6 witness filesystem: three lines, with three occurrences of `foo`,
two of them inside the match's line span. -/
def c6FS : FS := [(c6File, "x foo y foo\nz foo\nfoo tail\n".toList)]

/-- The C6 witness match: a regex fix spanning lines 1–2. -/
def c6M : RuleMatch := ⟨c6File, ⟨1, 1⟩, ⟨2, 2⟩, none, none, []⟩

/-- The zero offsets used by the C6 witness. -/
def c6Off : FileOffsets := ⟨0, 0, 1⟩

/-! ## Helper lemmas -/

/-- Python `==` between a `str` and a `Path` is `False`. -/
theorem pyEq_str_path (s : Str) (q : PPath) :
    pyEq (PyObj.pstr s) (PyObj.ppath q) = false := rfl

/-- The untracked-collision check can never raise: its intersection compares
`str` objects against `Path` objects, and `pyEq` is `false` across the two
constructors, so the overlap list is always empty. -/
theorem abort_on_conflicting_ok (status : GitStatus) (untracked : List PPath) :
    abort_on_conflicting_untracked_paths status untracked = .ok () := by
  have hfilter :
      (untracked.map (fun p => PyObj.pstr p.s)).filter
        (fun u =>
          ((status.added ++ status.modified ++ status.removed ++ status.unmerged).map
            PyObj.ppath).any (fun c => pyEq u c)) = [] := by
    rw [List.filter_eq_nil_iff]
    intro a ha
    obtain ⟨p, -, rfl⟩ := List.mem_map.mp ha
    rw [Bool.not_eq_true, List.any_eq_false]
    intro c hc
    obtain ⟨q, -, rfl⟩ := List.mem_map.mp hc
    simp [pyEq_str_path]
  unfold abort_on_conflicting_untracked_paths
  dsimp only
  rw [hfilter]
  simp

/-- Every branch of the `finally:` block runs the restoration checkout. -/
theorem restoreStep_has_restore (env : CtxEnv) (removed : List PPath) :
    GEvent.restoreCheckout ∈ (restoreStep env removed).1 := by
  unfold restoreStep
  cases restoreCheckoutErr env with
  | some e => simp
  | none =>
    by_cases h1 : removed = []
    · simp [h1]
    · by_cases h2 : removed.filter (fun r => env.fileExists r) = []
      · simp [h1, h2]
      · simp [h1, h2]

/-- The `finally:` block never emits a deletion event. -/
theorem restoreStep_no_unlink (env : CtxEnv) (removed : List PPath) (p : PPath) :
    GEvent.unlinkAdded p ∉ (restoreStep env removed).1 := by
  unfold restoreStep
  cases restoreCheckoutErr env with
  | some e => simp
  | none =>
    by_cases h1 : removed = []
    · simp [h1]
    · by_cases h2 : removed.filter (fun r => env.fileExists r) = []
      · simp [h1, h2]
      · simp [h1, h2]

/-- With a non-zero restoration exit code the `finally:` block raises
`AttributeError`: the checkout's stderr was not captured, so `x.stderr` is
`None` and `.decode()` fails before the diagnostic text can be inspected. -/
theorem restoreStep_err_of_rc (env : CtxEnv) (removed : List PPath)
    (hrc : env.restoreReturncode ≠ 0) :
    (restoreStep env removed).2 = some .attributeError := by
  have hc : restoreCheckoutErr env = some .attributeError := by
    unfold restoreCheckoutErr runWithoutCapture pyDecode
    simp [hrc]
  unfold restoreStep
  rw [hc]

/-- Reading back the key just written into a match's `extra` dictionary. -/
theorem extraGet_extraSet (extra : List (Str × List Str)) (k : Str) (v : List Str) :
    extraGet (extraSet extra k v) k = some v := by
  induction extra with
  | nil => simp [extraSet, extraGet]
  | cons hd tl ih =>
    by_cases h : hd.1 = k
    · simp [extraSet, extraGet, h]
    · simp [extraSet, extraGet, h, ih]

/-! ## The claims -/

/-- C10: the claim says the `_get_git_status` parsing loop terminates on every
finite null-delimited entry list, in particular on blank, untracked, ignored
or symlink-to-directory entries, because each iteration consumes input.  The
code contradicts this: the `continue` statements skip the
`status_output = status_output[trim_size:]` trim, so on the two-entry input
`"?\0a.txt"` (an untracked entry) every iteration leaves the state unchanged
and the loop never terminates, for every iteration bound. -/
theorem get_git_status_spins_on_untracked (fuel : Nat) :
    get_git_status noSymdir ("?\x00a.txt".toList) fuel = none := by
  have key : ∀ f, runParse noSymdir f
      ⟨["?".toList, "a.txt".toList], [], [], [], []⟩ = none := by
    intro f
    induction f with
    | zero => rfl
    | succ n ih =>
      have hstep : parseStep noSymdir
          ⟨["?".toList, "a.txt".toList], [], [], [], []⟩ =
          .next ⟨["?".toList, "a.txt".toList], [], [], [], []⟩ := by decide
      simp only [runParse, hstep]
      exact ih
  have hz : zsplit ("?\x00a.txt".toList) = ["?".toList, "a.txt".toList] := by decide
  unfold get_git_status
  rw [hz]
  exact key fuel

/-- C3: the claim says a collision between an untracked path and a path in
the status set aborts construction.  The code never aborts on it: the check
intersects a set of `str` with a set of `Path`, which is always empty, so
with `a.txt` both added in the status diff and untracked the constructor
completes normally — and in general the check returns without raising for
every status set and every untracked list. -/
theorem conflicting_untracked_construction_completes :
    BaselineHandler.init c3Env 3 = some (.ok ⟨[c3File], [], [], []⟩) ∧
    dirtyGet c3Env.dirty StatusCode.Untracked = [c3File] ∧
    (∀ (status : GitStatus) (untracked : List PPath),
      abort_on_conflicting_untracked_paths status untracked = .ok ()) := by
  exact ⟨rfl, by decide, abort_on_conflicting_ok⟩

/-- C2: the claim says a failing restoration checkout has its diagnostic
output inspected, with the empty-repository pattern tolerated and every other
failure raising the fatal manual-recovery error.  The code cannot do either:
the restoration `subprocess.run` does not pass `stderr=subprocess.PIPE`, so
`x.stderr` is `None` and `x.stderr.decode()` raises `AttributeError` on every
non-zero exit — here even though git printed exactly the benign pattern
(second conjunct), the context exits with `AttributeError`, not with
toleration and not with the fatal restore error. -/
theorem restore_failure_raises_attribute_error :
    baseline_context c2Status c2Env =
      ([GEvent.checkoutBaseline, GEvent.restoreCheckout],
        .error .attributeError) ∧
    benignEmptyRepo c2Env.restoreStderrText = true := by
  exact ⟨rfl, by decide⟩

/-- C5: the claim's scenario, encoded as stated (columns read as 1-indexed
inclusive spans of the target text, so `cols a–b` becomes start column `a`,
exclusive end column `b + 1`): the second match's columns 6–8 miss `foo`,
which occupies columns 5–7 of `"baz foo"`, so `apply_fixes` produces
`"qux bar\nbaz fqux\n"`, not the claimed `"qux bar\nbaz qux\n"`. -/
theorem c5_scenario_counterexample :
    fsRead (apply_fixes c5Rules c5FS false).fs c5File =
      some ("qux bar\nbaz fqux\n".toList) ∧
    ("qux bar\nbaz fqux\n".toList : Str) ≠ ("qux bar\nbaz qux\n".toList : Str) := by
  exact ⟨by decide, by decide⟩

/-- C5 (amended): with the second match at columns 5–7 — the actual span of
`foo` on line 2 — `apply_fixes` produces exactly the expected content
`"qux bar\nbaz qux\n"`. -/
theorem c5_scenario_amended :
    fsRead (apply_fixes c5RulesAmended c5FS false).fs c5File =
      some ("qux bar\nbaz qux\n".toList) := by
  decide

/-- C4: the claim says `line_offset` accumulates the net line-count change of
all edits applied to the file so far.  The code assigns instead of
accumulating (`file_offsets.line_offset = len(contents_after_fix) -
len(lines)`), so after the two line-adding fixes the stored `line_offset` is
`1` although the file grew by two split-lines (from 4 to 6); a third fix at
original line 3 is then shifted by only 1 and lands on the wrong line,
producing `"x\ny\np\nz\nc\n"` (clobbering `q`, keeping `c`) instead of the
intended `"x\ny\np\nq\nz\n"`. -/
theorem line_offset_assignment_not_cumulative :
    lookupOff (apply_fixes c4Rules2 c4FS false).modified_files_offsets c4File =
      some ⟨1, 2, 2⟩ ∧
    fsRead (apply_fixes c4Rules2 c4FS false).fs c4File =
      some ("x\ny\np\nq\nc\n".toList) ∧
    (("x\ny\np\nq\nc\n".toList).splitOn SPLIT_CHAR).length -
      (("a\nb\nc\n".toList).splitOn SPLIT_CHAR).length = 2 ∧
    fsRead (apply_fixes c4Rules3 c4FS false).fs c4File =
      some ("x\ny\np\nz\nc\n".toList) := by
  exact ⟨by decide, by decide, by decide, by decide⟩

/-- C9: a rename entry (status code starting with `R`, followed by the old and
the new path) makes the parse step append the old path to `removed` and the
new path to `added`, leaves `modified` (and `unmerged`) untouched, and
consumes three entries. -/
theorem rename_entry_classification (symdir : Str → Bool) (st : ParseSt)
    (code old_fname new_fname : Str) (rest : List Str)
    (hin : st.status_output = code :: old_fname :: new_fname :: rest)
    (hstrip : pyStrip code ≠ [])
    (hR : code.head? = some 'R')
    (hsym : symdir old_fname = false) :
    parseStep symdir st =
      .next ⟨rest, st.added ++ [PPath.mk new_fname], st.modified,
             st.removed ++ [PPath.mk old_fname], st.unmerged⟩ := by
  have hq : code ≠ StatusCode.Untracked := by
    intro h; rw [h] at hR; exact absurd hR (by decide)
  have hi : code ≠ StatusCode.Ignored := by
    intro h; rw [h] at hR; exact absurd hR (by decide)
  have hu : code ≠ StatusCode.Unmerged := by
    intro h; rw [h] at hR; exact absurd hR (by decide)
  have hA : code ≠ StatusCode.Added := by
    intro h; rw [h] at hR; exact absurd hR (by decide)
  have hM : code ≠ StatusCode.Modified := by
    intro h; rw [h] at hR; exact absurd hR (by decide)
  have hD : code ≠ StatusCode.Deleted := by
    intro h; rw [h] at hR; exact absurd hR (by decide)
  unfold parseStep
  rw [hin]
  simp [hstrip, hq, hi, hu, hA, hM, hD, hsym, hR]

/-- C9 witness: the rename entry `R100 old.txt new.txt` on the empty initial
state. -/
theorem rename_entry_classification_witness :
    pyStrip ("R100".toList) ≠ [] ∧ ("R100".toList : Str).head? = some 'R' ∧
    noSymdir ("old.txt".toList) = false ∧
    parseStep noSymdir c9wSt =
      .next ⟨[], [PPath.mk ("new.txt".toList)], [], [PPath.mk ("old.txt".toList)], []⟩ := by
  refine ⟨by decide, by decide, rfl, ?_⟩
  exact rename_entry_classification noSymdir c9wSt _ _ _ _ rfl (by decide) (by decide) rfl

/-- C1: whenever `baseline_context` passes its entry checks and the snapshot
`git write-tree` succeeds, (1) its event trace is the deletions of exactly the
added paths, then the baseline checkout, then a tail containing no deletion —
so every deletion precedes the checkout of the reference; (2) the restoration
checkout appears in the trace whatever the caller's body and the baseline
checkout did (the `finally:` block runs on every exit path, including a caller
exception); and (3) if the scoped operation returns normally the restoration
checkout exited with code 0, so the working tree is not left pointing at the
reference commit. -/
theorem baseline_context_restores (status : GitStatus) (env : CtxEnv)
    (hpend : abort_on_pending_changes env.dirty = .ok ())
    (hwt : env.writeTreeOk = true) :
    (∃ post, (baseline_context status env).1 =
        status.added.map GEvent.unlinkAdded ++ [GEvent.checkoutBaseline] ++ post ∧
        ∀ p, GEvent.unlinkAdded p ∉ post) ∧
    GEvent.restoreCheckout ∈ (baseline_context status env).1 ∧
    ((baseline_context status env).2 = .ok () → env.restoreReturncode = 0) := by
  have hconf := abort_on_conflicting_ok status (dirtyGet env.dirty StatusCode.Untracked)
  unfold baseline_context
  rw [hpend, hconf]
  simp only [hwt, not_true_eq_false, if_false, ite_false]
  refine ⟨⟨(restoreStep env status.removed).1, ?_, ?_⟩, ?_, ?_⟩
  · simp [List.append_assoc]
  · intro p
    exact restoreStep_no_unlink env status.removed p
  · simp only [List.mem_append]
    exact Or.inr (restoreStep_has_restore env status.removed)
  · intro hok
    by_contra hrc
    rw [restoreStep_err_of_rc env status.removed hrc] at hok
    exact absurd hok (by simp)

/-- The offset prologue leaves the filesystem, the modified-files set and the
write log untouched. -/
theorem applyFixesAlias_frame (st : LoopSt) (m : RuleMatch) :
    (applyFixesAlias st m).1.fs = st.fs ∧
    (applyFixesAlias st m).1.modified_files = st.modified_files ∧
    (applyFixesAlias st m).1.writeEvents = st.writeEvents := by
  unfold applyFixesAlias
  dsimp only
  split <;> exact ⟨rfl, rfl, rfl⟩

/-- A `continue` outcome of the fix dispatch means the match carried neither a
truthy literal fix nor a regex fix. -/
theorem applyFixesCompute_inr (fs : FS) (m : RuleMatch) (off : FileOffsets)
    (u : Unit) (h : applyFixesCompute fs m off = .inr u) :
    truthyStr m.fix = none ∧ m.fix_regex = none := by
  unfold applyFixesCompute at h
  cases ht : truthyStr m.fix <;> rw [ht] at h
  · cases hf : m.fix_regex <;> rw [hf] at h
    · exact ⟨rfl, rfl⟩
    · simp at h
  · simp at h

/-- A dry-run iteration never writes to the filesystem. -/
theorem applyFixesStep_dryrun_fs (st : LoopSt) (m : RuleMatch) :
    (applyFixesStep true st m).1.fs = st.fs := by
  unfold applyFixesStep
  dsimp only
  cases hc : applyFixesCompute (applyFixesAlias st m).1.fs m (applyFixesAlias st m).2 with
  | inr u => exact (applyFixesAlias_frame st m).1
  | inl r =>
    cases r with
    | error e => exact (applyFixesAlias_frame st m).1
    | ok pr => exact (applyFixesAlias_frame st m).1

/-- One iteration either leaves the modified-files set and the write log
unchanged, or inserts one path into the set and appends the same path to the
log. -/
theorem applyFixesStep_writes (d : Bool) (st : LoopSt) (m : RuleMatch) :
    ((applyFixesStep d st m).1.modified_files = st.modified_files ∧
     (applyFixesStep d st m).1.writeEvents = st.writeEvents) ∨
    ∃ p, (applyFixesStep d st m).1.modified_files = setAdd st.modified_files p ∧
         (applyFixesStep d st m).1.writeEvents = st.writeEvents ++ [p] := by
  obtain ⟨-, hmf, hwe⟩ := applyFixesAlias_frame st m
  unfold applyFixesStep
  dsimp only
  cases hc : applyFixesCompute (applyFixesAlias st m).1.fs m (applyFixesAlias st m).2 with
  | inr u => exact Or.inl ⟨hmf, hwe⟩
  | inl r =>
    cases r with
    | error e => exact Or.inl ⟨hmf, hwe⟩
    | ok pr =>
      cases pr with
      | mk fixobj off =>
        cases d with
        | true => exact Or.inl ⟨hmf, hwe⟩
        | false =>
          refine Or.inr ⟨m.path, ?_, ?_⟩
          · show setAdd (applyFixesAlias st m).1.modified_files m.path =
              setAdd st.modified_files m.path
            rw [hmf]
          · show (applyFixesAlias st m).1.writeEvents ++ [m.path] =
              st.writeEvents ++ [m.path]
            rw [hwe]

/-- A successful dry-run iteration on a match that carries a fix leaves the
`fixed_lines` key set in the returned match's `extra` dictionary. -/
theorem applyFixesStep_attach (st : LoopSt) (m : RuleMatch) (st' : LoopSt)
    (m' : RuleMatch) (h : applyFixesStep true st m = (st', m', none))
    (hfix : truthyStr m'.fix ≠ none ∨ m'.fix_regex ≠ none) :
    extraGet m'.extra ("fixed_lines".toList) ≠ none := by
  unfold applyFixesStep at h
  dsimp only at h
  cases hc : applyFixesCompute (applyFixesAlias st m).1.fs m (applyFixesAlias st m).2 <;>
    rw [hc] at h
  case inl r =>
    cases r with
    | error e => simp [Prod.ext_iff] at h
    | ok pr =>
      cases pr with
      | mk fixobj off =>
        have hm : m' =
            { m with extra := extraSet m.extra ("fixed_lines".toList) fixobj.fixed_lines } := by
          have := congrArg (fun x => x.2.1) h
          simpa using this.symm
        rw [hm]
        simp [extraGet_extraSet]
  case inr u =>
    have hm : m' = m := by
      have := congrArg (fun x => x.2.1) h
      simpa using this.symm
    obtain ⟨hcf, hcr⟩ := applyFixesCompute_inr _ _ _ _ hc
    rw [hm] at hfix
    rcases hfix with hf | hf
    · exact absurd hcf hf
    · exact absurd hcr hf

/-- Dry-run purity of the inner match loop. -/
theorem applyFixesMatches_dryrun_fs (ms : List RuleMatch) :
    ∀ st : LoopSt, (applyFixesMatches true st ms).1.fs = st.fs := by
  induction ms with
  | nil => intro st; rfl
  | cons m ms ih =>
    intro st
    have hfs := applyFixesStep_dryrun_fs st m
    rcases hstep : applyFixesStep true st m with ⟨st', m', eopt⟩
    rw [hstep] at hfs
    cases eopt with
    | some e => simp only [applyFixesMatches, hstep]; exact hfs
    | none =>
      simp only [applyFixesMatches, hstep]
      rw [ih st']
      exact hfs

/-- Attachment of `fixed_lines` by a completed dry-run inner loop. -/
theorem applyFixesMatches_dryrun_attach (ms : List RuleMatch) :
    ∀ st : LoopSt, (applyFixesMatches true st ms).2.2 = none →
      ∀ m' ∈ (applyFixesMatches true st ms).2.1,
        (truthyStr m'.fix ≠ none ∨ m'.fix_regex ≠ none) →
        extraGet m'.extra ("fixed_lines".toList) ≠ none := by
  induction ms with
  | nil => intro st _ m' hm'; simp [applyFixesMatches] at hm'
  | cons m ms ih =>
    intro st herr m' hm' hfix
    rcases hstep : applyFixesStep true st m with ⟨st', m1, eopt⟩
    rw [applyFixesMatches, hstep] at herr hm'
    cases eopt with
    | some e => simp at herr
    | none =>
      dsimp only at herr hm'
      rcases List.mem_cons.mp hm' with rfl | hmem
      · exact applyFixesStep_attach st m st' m' hstep hfix
      · exact ih st' herr m' hmem hfix

/-- The write-set invariant of the inner match loop: the modified-files set
stays duplicate-free and contains exactly the paths that were written. -/
theorem applyFixesMatches_writes_inv (d : Bool) (ms : List RuleMatch) :
    ∀ st : LoopSt, st.modified_files.Nodup →
      (∀ p, p ∈ st.modified_files ↔ p ∈ st.writeEvents) →
      (applyFixesMatches d st ms).1.modified_files.Nodup ∧
      ∀ p, p ∈ (applyFixesMatches d st ms).1.modified_files ↔
        p ∈ (applyFixesMatches d st ms).1.writeEvents := by
  induction ms with
  | nil => intro st h1 h2; exact ⟨h1, h2⟩
  | cons m ms ih =>
    intro st h1 h2
    have hstep' := applyFixesStep_writes d st m
    rcases hstep : applyFixesStep d st m with ⟨st', m1, eopt⟩
    rw [hstep] at hstep'
    dsimp only at hstep'
    have hinv : st'.modified_files.Nodup ∧
        ∀ p, p ∈ st'.modified_files ↔ p ∈ st'.writeEvents := by
      rcases hstep' with ⟨hm, hw⟩ | ⟨p, hm, hw⟩
      · rw [hm, hw]; exact ⟨h1, h2⟩
      · rw [hm, hw]
        constructor
        · unfold setAdd
          split
          · exact h1
          · rw [List.nodup_append]
            exact ⟨h1, List.nodup_singleton p, by
              intro q hq hq'
              rw [List.mem_singleton] at hq'
              subst hq'
              exact ‹q ∉ st.modified_files› hq⟩
        · intro q
          unfold setAdd
          split
          · rename_i hp
            rw [h2 q, List.mem_append, List.mem_singleton]
            constructor
            · exact fun hq => Or.inl hq
            · rintro (hq | rfl)
              · exact hq
              · exact (h2 q).mp hp
          · simp only [List.mem_append, List.mem_singleton]
            rw [h2 q]
    rw [applyFixesMatches, hstep]
    cases eopt with
    | some e => exact hinv
    | none => exact ih st' hinv.1 hinv.2

/-- Dry-run purity of the outer rule loop. -/
theorem applyFixesRules_dryrun_fs (rules : List (Str × List RuleMatch)) :
    ∀ st : LoopSt, (applyFixesRules true st rules).1.fs = st.fs := by
  induction rules with
  | nil => intro st; rfl
  | cons pr rules ih =>
    intro st
    have hfs := applyFixesMatches_dryrun_fs pr.2 st
    rcases hstep : applyFixesMatches true st pr.2 with ⟨st', ms', eopt⟩
    rw [hstep] at hfs
    cases eopt with
    | some e => simp only [applyFixesRules, hstep]; exact hfs
    | none =>
      simp only [applyFixesRules, hstep]
      rw [ih st']
      exact hfs

/-- Attachment of `fixed_lines` by a completed dry-run outer loop. -/
theorem applyFixesRules_dryrun_attach (rules : List (Str × List RuleMatch)) :
    ∀ st : LoopSt, (applyFixesRules true st rules).2.2 = none →
      ∀ pr ∈ (applyFixesRules true st rules).2.1, ∀ m' ∈ pr.2,
        (truthyStr m'.fix ≠ none ∨ m'.fix_regex ≠ none) →
        extraGet m'.extra ("fixed_lines".toList) ≠ none := by
  induction rules with
  | nil => intro st _ pr hpr; simp [applyFixesRules] at hpr
  | cons r rules ih =>
    intro st herr pr hpr m' hm' hfix
    rcases hstep : applyFixesMatches true st r.2 with ⟨st', ms', eopt⟩
    rw [applyFixesRules, hstep] at herr hpr
    cases eopt with
    | some e => simp at herr
    | none =>
      dsimp only at herr hpr
      rcases List.mem_cons.mp hpr with rfl | hmem
      · have herr' : (applyFixesMatches true st r.2).2.2 = none := by
          rw [hstep]
        have := applyFixesMatches_dryrun_attach r.2 st herr' m'
        rw [hstep] at this
        exact this hm' hfix
      · exact ih st' herr pr hmem m' hm' hfix

/-- The write-set invariant of the outer rule loop. -/
theorem applyFixesRules_writes_inv (d : Bool) (rules : List (Str × List RuleMatch)) :
    ∀ st : LoopSt, st.modified_files.Nodup →
      (∀ p, p ∈ st.modified_files ↔ p ∈ st.writeEvents) →
      (applyFixesRules d st rules).1.modified_files.Nodup ∧
      ∀ p, p ∈ (applyFixesRules d st rules).1.modified_files ↔
        p ∈ (applyFixesRules d st rules).1.writeEvents := by
  induction rules with
  | nil => intro st h1 h2; exact ⟨h1, h2⟩
  | cons r rules ih =>
    intro st h1 h2
    have hinv' := applyFixesMatches_writes_inv d r.2 st h1 h2
    rcases hstep : applyFixesMatches d st r.2 with ⟨st', ms', eopt⟩
    rw [hstep] at hinv'
    rw [applyFixesRules, hstep]
    cases eopt with
    | some e => exact hinv'
    | none => exact ih st' hinv'.1 hinv'.2

/-- Two duplicate-free-vs-log lists with the same members have the dedup
length in common. -/
theorem length_eq_dedup_length (l w : List PPath) (h1 : l.Nodup)
    (h2 : ∀ p, p ∈ l ↔ p ∈ w) : l.length = w.dedup.length := by
  have h3 : l.toFinset = w.dedup.toFinset := by
    ext p
    simp only [List.mem_toFinset, List.mem_dedup]
    exact h2 p
  calc l.length = l.toFinset.card := (List.toFinset_card_of_nodup h1).symm
    _ = w.dedup.toFinset.card := by rw [h3]
    _ = w.dedup.length := List.toFinset_card_of_nodup (w.nodup_dedup)

/-- C7: a dry-run `apply_fixes` never mutates the filesystem, whatever the
input mapping; and when the call completes without an exception, every match
that carries a literal or regex fix has the computed `fixed_lines` attached
to its `extra` record. -/
theorem apply_fixes_dryrun_pure (rules : List (Str × List RuleMatch)) (fs : FS) :
    (apply_fixes rules fs true).fs = fs ∧
    ((apply_fixes rules fs true).err = none →
      ∀ pr ∈ (apply_fixes rules fs true).matchesOut, ∀ m ∈ pr.2,
        (truthyStr m.fix ≠ none ∨ m.fix_regex ≠ none) →
        extraGet m.extra ("fixed_lines".toList) ≠ none) := by
  constructor
  · exact applyFixesRules_dryrun_fs rules ⟨fs, [], [], []⟩
  · intro herr pr hpr m hm hfix
    exact applyFixesRules_dryrun_attach rules ⟨fs, [], [], []⟩ herr pr hpr m hm hfix

/-- C7 witness: a single literal fix, dry-run; the filesystem is unchanged and
the fixed lines are attached. -/
theorem apply_fixes_dryrun_pure_witness :
    (apply_fixes c7Rules c7FS true).fs = c7FS ∧
    (∀ pr ∈ (apply_fixes c7Rules c7FS true).matchesOut, ∀ m ∈ pr.2,
      (truthyStr m.fix ≠ none ∨ m.fix_regex ≠ none) →
      extraGet m.extra ("fixed_lines".toList) ≠ none) :=
  ⟨(apply_fixes_dryrun_pure c7Rules c7FS).1,
   (apply_fixes_dryrun_pure c7Rules c7FS).2 (by decide)⟩

/-- C8: the claim says `apply_fixes` returns the set of modified paths.  It
does not: the source is annotated `-> None` and has no `return` statement, so
the return value of a completed call is `None` even when files were modified
(first two conjuncts, at a concrete input with one applied fix). -/
theorem apply_fixes_returns_none_counterexample :
    (apply_fixes c7Rules c7FS false).ret = none ∧
    (apply_fixes c7Rules c7FS false).modified_files = [c7File] := by
  exact ⟨rfl, by decide⟩

/-- C8 (amended): `apply_fixes` computes the set of distinct modified paths in
a local variable — duplicate-free and containing exactly the written paths —
and reports its size as the summary count of distinct modified files, but
returns `None` rather than that set. -/
theorem apply_fixes_modified_set_summary (rules : List (Str × List RuleMatch))
    (fs : FS) :
    (apply_fixes rules fs false).ret = none ∧
    (apply_fixes rules fs false).modified_files.Nodup ∧
    (∀ p, p ∈ (apply_fixes rules fs false).modified_files ↔
      p ∈ (apply_fixes rules fs false).writeEvents) ∧
    (apply_fixes rules fs false).num_modified =
      (if (apply_fixes rules fs false).err = none
       then some (apply_fixes rules fs false).writeEvents.dedup.length
       else none) := by
  have hinv := applyFixesRules_writes_inv false rules ⟨fs, [], [], []⟩
    List.nodup_nil (by intro p; simp)
  refine ⟨rfl, hinv.1, hinv.2, ?_⟩
  unfold apply_fixes
  dsimp only
  by_cases herr : (applyFixesRules false ⟨fs, [], [], []⟩ rules).2.2 = none
  · rw [if_pos herr, if_pos herr]
    rw [length_eq_dedup_length _ _ hinv.1 hinv.2]
  · rw [if_neg herr, if_neg herr]

/-- `re.sub` with an exhausted budget copies the rest verbatim. -/
theorem reSub_budget_zero (p r : Str) (s : Str) : reSub p r (some 0) s = s := by
  cases s <;> simp [reSub]

/-- Unfolding `firstOccIdx` when the pattern matches at the head. -/
theorem firstOccIdx_cons_pos (p : Str) (c : Char) (cs : Str)
    (h : p.isPrefixOf (c :: cs)) : firstOccIdx p (c :: cs) = some 0 := by
  unfold firstOccIdx
  rw [if_pos h]

/-- Unfolding `firstOccIdx` when the pattern does not match at the head. -/
theorem firstOccIdx_cons_neg (p : Str) (c : Char) (cs : Str)
    (h : ¬ p.isPrefixOf (c :: cs)) :
    firstOccIdx p (c :: cs) = (firstOccIdx p cs).map (· + 1) := by
  unfold firstOccIdx
  rw [if_neg h]
  cases cs <;> rfl

/-- `replaceFirst` is the identity when there is no occurrence. -/
theorem replaceFirst_of_idx_none (p r s : Str) (h : firstOccIdx p s = none) :
    replaceFirst p r s = s := by
  unfold replaceFirst
  rw [h]

/-- `replaceFirst` splices at the leftmost occurrence. -/
theorem replaceFirst_of_idx_some (p r s : Str) (i : Nat)
    (h : firstOccIdx p s = some i) :
    replaceFirst p r s = s.take i ++ r ++ s.drop (i + p.length) := by
  unfold replaceFirst
  rw [h]

/-- With count 1 the literal substitution replaces exactly the leftmost
occurrence of the pattern, leaving any further occurrences alone. -/
theorem reSub_one_replaceFirst (p r : Str) (hp : p ≠ []) :
    ∀ s, reSub p r (some 1) s = replaceFirst p r s := by
  intro s
  induction s with
  | nil => simp [reSub, replaceFirst, firstOccIdx]
  | cons c cs ih =>
    by_cases hpre : p.isPrefixOf (c :: cs)
    · rw [reSub]
      rw [if_neg (by decide), dif_pos ⟨hp, hpre⟩]
      rw [show (some 1).map (· - 1) = some 0 from rfl, reSub_budget_zero]
      rw [replaceFirst_of_idx_some p r (c :: cs) 0 (firstOccIdx_cons_pos p c cs hpre)]
      simp
    · rw [reSub]
      rw [if_neg (by decide), dif_neg (fun hcon => hpre hcon.2)]
      rw [ih]
      cases hidx : firstOccIdx p cs with
      | none =>
        rw [replaceFirst_of_idx_none p r cs hidx,
          replaceFirst_of_idx_none p r (c :: cs)
            (by rw [firstOccIdx_cons_neg p c cs hpre, hidx]; rfl)]
      | some j =>
        rw [replaceFirst_of_idx_some p r cs j hidx,
          replaceFirst_of_idx_some p r (c :: cs) (j + 1)
            (by rw [firstOccIdx_cons_neg p c cs hpre, hidx]; rfl)]
        rw [List.take_succ_cons]
        have harith : j + 1 + p.length = (j + p.length) + 1 := by omega
        rw [harith, List.drop_succ_cons]
        simp

/-- A string with no occurrence of the pattern passes through unchanged. -/
theorem reSub_none_of_no_occ (p r : Str) :
    ∀ s, firstOccIdx p s = none → reSub p r none s = s := by
  intro s
  induction s with
  | nil => intro _; simp [reSub]
  | cons c cs ih =>
    intro h
    have hpre : ¬ p.isPrefixOf (c :: cs) := by
      intro hp
      unfold firstOccIdx at h
      rw [if_pos hp] at h
      cases h
    have htail : firstOccIdx p cs = none := by
      unfold firstOccIdx at h
      rw [if_neg hpre] at h
      exact Option.map_eq_none'.mp h
    rw [reSub]
    rw [if_neg (by decide), dif_neg (fun hcon => hpre hcon.2)]
    rw [ih htail]

/-- Unbounded substitution unfolds along the leftmost occurrence. -/
theorem reSub_none_step (p r : Str) (hp : p ≠ []) :
    ∀ s i, firstOccIdx p s = some i →
      reSub p r none s = s.take i ++ r ++ reSub p r none (s.drop (i + p.length)) := by
  intro s
  induction s with
  | nil => intro i h; simp [firstOccIdx] at h
  | cons c cs ih =>
    intro i h
    by_cases hpre : p.isPrefixOf (c :: cs)
    · have hi : i = 0 := by
        unfold firstOccIdx at h
        rw [if_pos hpre] at h
        exact (Option.some_inj.mp h).symm
      subst hi
      rw [reSub]
      rw [if_neg (by decide), dif_pos ⟨hp, hpre⟩]
      rw [show (Option.map (· - 1) none : Option Nat) = none from rfl]
      simp
    · have hstep : ∃ j, firstOccIdx p cs = some j ∧ i = j + 1 := by
        unfold firstOccIdx at h
        rw [if_neg hpre] at h
        cases hidx : firstOccIdx p cs with
        | none => rw [hidx] at h; cases h
        | some j =>
          rw [hidx] at h
          exact ⟨j, rfl, (Option.some_inj.mp h).symm⟩
      obtain ⟨j, hidx, rfl⟩ := hstep
      rw [reSub]
      rw [if_neg (by decide), dif_neg (fun hcon => hpre hcon.2)]
      rw [ih j hidx]
      rw [List.take_succ_cons]
      have harith : j + 1 + p.length = (j + p.length) + 1 := by omega
      rw [harith, List.drop_succ_cons]
      simp

/-- The leftmost occurrence index is inside the string. -/
theorem firstOccIdx_lt_length (p : Str) :
    ∀ s i, firstOccIdx p s = some i → i < s.length := by
  intro s
  induction s with
  | nil => intro i h; simp [firstOccIdx] at h
  | cons c cs ih =>
    intro i h
    by_cases hpre : p.isPrefixOf (c :: cs)
    · unfold firstOccIdx at h
      rw [if_pos hpre] at h
      rw [← Option.some_inj.mp h]
      simp
    · unfold firstOccIdx at h
      rw [if_neg hpre] at h
      cases hidx : firstOccIdx p cs with
      | none => rw [hidx] at h; cases h
      | some j =>
        rw [hidx] at h
        rw [← Option.some_inj.mp h]
        have := ih j hidx
        simp only [List.length_cons]
        omega

/-- With enough fuel the iterated leftmost-replacement agrees with the
unbounded scan. -/
theorem replaceAllAux_reSub (c : Char) (ps r : Str) :
    ∀ fuel s, s.length ≤ fuel →
      replaceAllAux c ps r fuel s = reSub (c :: ps) r none s := by
  intro fuel
  induction fuel with
  | zero =>
    intro s hs
    have hnil : s = [] := List.length_eq_zero.mp (Nat.le_zero.mp hs)
    subst hnil
    simp [replaceAllAux, reSub]
  | succ n ih =>
    intro s hs
    rw [replaceAllAux]
    cases hidx : firstOccIdx (c :: ps) s with
    | none =>
      dsimp only
      rw [reSub_none_of_no_occ _ _ s hidx]
    | some i =>
      dsimp only
      rw [reSub_none_step (c :: ps) r (by simp) s i hidx]
      have hlt := firstOccIdx_lt_length (c :: ps) s i hidx
      rw [ih (s.drop (i + (c :: ps).length))
        (by simp only [List.length_drop, List.length_cons]; omega)]

/-- Count 0 — Python's "replace all" — is the iterated leftmost-occurrence
replacement. -/
theorem reSub_none_replaceAll (p r : Str) (hp : p ≠ []) (s : Str) :
    reSub p r none s = replaceAll p r s := by
  cases p with
  | nil => exact absurd rfl hp
  | cons c ps =>
    unfold replaceAll
    exact (replaceAllAux_reSub c ps r s.length s le_rfl).symm

/-- C6: for a regex fix with a nonempty literal pattern, `_regex_replace` with
`count = 1` rewrites the joined text of the match's line span by replacing
exactly the leftmost occurrence of the pattern (even if more occurrences
exist there), with `count = 0` it replaces every occurrence in that span, an
absent `count` entry defaults to 0, and in both cases the output is the
untouched lines before the span, the transformed block, and the untouched
lines after the span — lines outside the match's line range are never
transformed. -/
theorem regex_fix_count_semantics (fs : FS) (m : RuleMatch) (off : FileOffsets)
    (p r contents : Str) (hread : fsRead fs m.path = some contents)
    (hp : p ≠ []) :
    (∃ o1, regex_replace fs m off p r 1 =
      .ok (⟨List.intercalate [SPLIT_CHAR]
              (regexBeforeLines contents m off ++
                pySplitlines (replaceFirst p r (regexSpanText contents m off)) ++
                regexAfterLines contents m off),
            pySplitlines (replaceFirst p r (regexSpanText contents m off))⟩, o1)) ∧
    (∃ o0, regex_replace fs m off p r 0 =
      .ok (⟨List.intercalate [SPLIT_CHAR]
              (regexBeforeLines contents m off ++
                pySplitlines (replaceAll p r (regexSpanText contents m off)) ++
                regexAfterLines contents m off),
            pySplitlines (replaceAll p r (regexSpanText contents m off))⟩, o0)) ∧
    fixRegexCount ⟨some p, some r, none⟩ = 0 := by
  have hl : get_lines fs m.path = .ok (contents.splitOn SPLIT_CHAR) := by
    unfold get_lines
    rw [hread]
  refine ⟨?_, ?_, rfl⟩
  · exact ⟨_, by
      unfold regex_replace
      rw [hl]
      unfold regexBeforeLines regexAfterLines regexSpanText
      dsimp only
      rw [show subBudget 1 = some 1 from rfl]
      rw [reSub_one_replaceFirst p r hp]⟩
  · exact ⟨_, by
      unfold regex_replace
      rw [hl]
      unfold regexBeforeLines regexAfterLines regexSpanText
      dsimp only
      rw [show subBudget 0 = none from rfl]
      rw [reSub_none_replaceAll p r hp]⟩

/-- C6 witness: a two-line span with two occurrences of `foo` inside it and a
third occurrence outside; count 1 replaces only the leftmost in-span
occurrence, count 0 replaces both in-span occurrences, and the line after the
span keeps its `foo` in both cases. -/
theorem regex_fix_count_semantics_witness :
    fsRead c6FS c6M.path = some ("x foo y foo\nz foo\nfoo tail\n".toList) ∧
    ("foo".toList : Str) ≠ [] ∧
    (∃ o1, regex_replace c6FS c6M c6Off ("foo".toList) ("Q".toList) 1 =
        .ok (⟨"x Q y foo\nz foo\nfoo tail\n".toList,
              ["x Q y foo".toList, "z foo".toList]⟩, o1)) ∧
    (∃ o0, regex_replace c6FS c6M c6Off ("foo".toList) ("Q".toList) 0 =
        .ok (⟨"x Q y Q\nz Q\nfoo tail\n".toList,
              ["x Q y Q".toList, "z Q".toList]⟩, o0)) := by
  have main := regex_fix_count_semantics c6FS c6M c6Off ("foo".toList) ("Q".toList)
    ("x foo y foo\nz foo\nfoo tail\n".toList) rfl (by decide)
  refine ⟨rfl, by decide, ?_, ?_⟩
  · obtain ⟨o1, h1⟩ := main.1
    refine ⟨o1, h1.trans ?_⟩
    congr 1
  · obtain ⟨o0, h0⟩ := main.2.1
    refine ⟨o0, h0.trans ?_⟩
    congr 1

/-- C1 witness: one added and one removed path, a clean tree, and a caller
body that raises; the hypotheses are discharged by computation. -/
theorem baseline_context_restores_witness :
    abort_on_pending_changes c1wEnv.dirty = .ok () ∧ c1wEnv.writeTreeOk = true ∧
    ((∃ post, (baseline_context c1wStatus c1wEnv).1 =
        c1wStatus.added.map GEvent.unlinkAdded ++ [GEvent.checkoutBaseline] ++ post ∧
        ∀ p, GEvent.unlinkAdded p ∉ post) ∧
     GEvent.restoreCheckout ∈ (baseline_context c1wStatus c1wEnv).1 ∧
     ((baseline_context c1wStatus c1wEnv).2 = .ok () →
       c1wEnv.restoreReturncode = 0)) :=
  ⟨rfl, rfl, baseline_context_restores c1wStatus c1wEnv rfl rfl⟩

end Semgrep
